import Mathlib

/-!
Shallow embedding of the dao-v1.0 metaforo watchdog script
(src/dao-v1.0/metaforo_watchdog_en.py).  Network endpoints are modelled as
oracles: a page-oriented endpoint is a finite list of page results (after the
listed pages the server keeps answering with an empty page), a profile
endpoint is a function from user id to an optional profile, and the address
bridge (metamask_to_ckb_address, an external encoding library) is an abstract
function from the foreign public key to an address string.  Capacities are
modelled as exact rationals, mirroring the float(...) parse in the script;
platform weights are integers.
-/

namespace Watchdog

/-- Model of the requests library exception classes relevant to retry
classification.  An HTTPError may lack an attached response, in which case no
status code is available. -/
inductive ReqError where
  | connectionError
  | timeout
  | httpError (status : Option Nat)
  | otherError
deriving DecidableEq, Repr

/-- Translation of is_retryable_error (lines 37-58): connection errors and
timeouts are retryable, HTTP errors carrying a response are retryable exactly
for status 429 or at least 500, everything else is not. -/
def is_retryable_error : ReqError → Bool
  | ReqError.connectionError => true
  | ReqError.timeout => true
  | ReqError.httpError (some status) => status == 429 || decide (500 ≤ status)
  | ReqError.httpError none => false
  | ReqError.otherError => false

/-- Outcome of request_with_retry: a response, a re-raised request error, or
the ValueError raised for an unsupported HTTP method. -/
inductive ReqResult (α : Type) where
  | ok (r : α)
  | raised (e : ReqError)
  | valueError
deriving DecidableEq, Repr

/-- Model of the Python str.lower call used on the method argument
(ASCII case folding of each character). -/
def lowerString (s : String) : String := String.mk (s.data.map Char.toLower)

/-- The retry loop of request_with_retry (lines 81-101).  The oracle gives the
outcome of the attempt with the given index; remaining counts the retries the
loop may still take, so remaining = max_retries - attempt, and the condition
attempt < max_retries of the source is remaining > 0.  The returned number
counts loop iterations (attempts) actually performed. -/
def requestAttemptLoop (oracle : Nat → Except ReqError α) (attempt : Nat) :
    Nat → Except ReqError α × Nat
  | 0 =>
    match oracle attempt with
    | Except.ok r => (Except.ok r, 1)
    | Except.error e => (Except.error e, 1)
  | remaining + 1 =>
    match oracle attempt with
    | Except.ok r => (Except.ok r, 1)
    | Except.error e =>
      if is_retryable_error e then
        let r := requestAttemptLoop oracle (attempt + 1) remaining
        (r.1, r.2 + 1)
      else (Except.error e, 1)

/-- Translation of request_with_retry (lines 61-103): an unsupported method
raises ValueError on the first loop iteration (the except clause only catches
RequestException, so it propagates at once); otherwise the retry loop starts
at attempt 0 with max_retries retries still available. -/
def request_with_retry (method : String) (max_retries : Nat)
    (oracle : Nat → Except ReqError α) : ReqResult α × Nat :=
  if lowerString method = "get" ∨ lowerString method = "post" then
    match requestAttemptLoop oracle 0 max_retries with
    | (Except.ok r, n) => (ReqResult.ok r, n)
    | (Except.error e, n) => (ReqResult.raised e, n)
  else (ReqResult.valueError, 1)

/-- One vote record, as consumed from a poll/list page (the fields the
pipeline reads: name, user_id, weight).  user_id is none when the field is
absent; Python treats both an absent id and the id 0 as falsy. -/
structure Vote where
  name : String
  user_id : Option Nat
  weight : ℤ
deriving DecidableEq, Repr

/-- Result of one poll/list page request, after the retry layer: a successful
envelope (status true, code 20000) carrying the page body, a non-success
envelope, or a RequestException that survived all retries. -/
inductive VotePageResult where
  | success (votes : List Vote)
  | envelopeFail
  | netFail
deriving DecidableEq, Repr

/-- Translation of the loop of get_all_votes (lines 213-240), over the finite
list of page results the server would answer with (after the listed pages the
server answers with empty pages).  page is the 1-indexed page number sent with
the request.  Returns the vote list (none on any failure, discarding every
previously fetched page) and the list of page numbers actually requested. -/
def get_all_votes_aux : Nat → List VotePageResult → Option (List Vote) × List Nat
  | page, [] => (some [], [page])
  | page, VotePageResult.success votes :: rest =>
    if votes.isEmpty then (some [], [page])
    else
      let r := get_all_votes_aux (page + 1) rest
      (r.1.map (fun more => votes ++ more), page :: r.2)
  | page, VotePageResult.envelopeFail :: _ => (none, [page])
  | page, VotePageResult.netFail :: _ => (none, [page])

/-- get_all_votes (lines 209-240): the Metaforo page parameter starts from 1. -/
def get_all_votes (pages : List VotePageResult) : Option (List Vote) × List Nat :=
  get_all_votes_aux 1 pages

/-- One live cell as returned by the explorer API: its cell_type tag and its
capacity (an exact rational, mirroring the float(...) parse on line 292). -/
structure Cell where
  cell_type : String
  capacity : ℚ
deriving DecidableEq, Repr

/-- Result of one address_live_cells page request, after the retry layer: the
page body, a 404 (address never seen on chain), any other RequestException
that survived retries, or a JSON/key parse error.  All three failure kinds
break out of the loop in the source (lines 298-307). -/
inductive CellPageResult where
  | ok (cells : List Cell)
  | notFound404
  | otherFail
  | parseError
deriving DecidableEq, Repr

/-- The capacity accumulation of lines 289-293: only cells whose cell_type is
nervos_dao_deposit contribute to the sum. -/
def sumDeposits : List Cell → ℚ
  | [] => 0
  | c :: rest =>
    (if c.cell_type = "nervos_dao_deposit" then c.capacity else 0) + sumDeposits rest

/-- Translation of the loop of get_address_onchain_weight (lines 283-308),
over the finite list of page results the server would answer with (after the
listed pages the server answers with empty pages).  A page shorter than
page_size is the last page; any failure breaks, keeping the capacity summed so
far.  Returns the accumulated capacity and the 1-indexed page numbers
requested. -/
def fetch_cells_aux (page_size : Nat) : Nat → List CellPageResult → ℚ × List Nat
  | page, [] => (0, [page])
  | page, CellPageResult.ok cells :: rest =>
    if cells.length < page_size then (sumDeposits cells, [page])
    else
      let r := fetch_cells_aux page_size (page + 1) rest
      (sumDeposits cells + r.1, page :: r.2)
  | page, CellPageResult.notFound404 :: _ => (0, [page])
  | page, CellPageResult.otherFail :: _ => (0, [page])
  | page, CellPageResult.parseError :: _ => (0, [page])

/-- get_address_onchain_weight (lines 274-311): page numbering starts at 1,
and the shannon total is divided by 10 ^ 8 and floored before returning.  The
source fixes page_size = 20; it is kept as a parameter to state that the
result does not depend on it. -/
def get_address_onchain_weight (page_size : Nat) (pages : List CellPageResult) : ℤ :=
  ⌊(fetch_cells_aux page_size 1 pages).1 / 10 ^ 8⌋

/-- Splitting of a cell list into server pages of the given size: every page
has exactly page_size cells except the last, which holds the remainder.  Used
to relate one underlying cell set to the paged fetches of the source. -/
def chunkPages : Nat → List α → List (List α)
  | _, [] => []
  | 0, x :: xs => [x :: xs]
  | ps + 1, x :: xs =>
    (x :: xs).take (ps + 1) :: chunkPages (ps + 1) ((x :: xs).drop (ps + 1))
termination_by _ l => l.length
decreasing_by simp [List.length_drop]; omega

/-- The profile fields read by get_user_dao_addresses: the natively registered
neuron address list and the optional foreign-chain public key (empty string
when absent, which Python treats as falsy). -/
structure Profile where
  neuron_addresses : List String
  web3_public_key : String
deriving DecidableEq, Repr

/-- Translation of get_user_dao_addresses (lines 242-272).  The profile
endpoint yields none when the request failed or the envelope was not a
success, in which case the source returns an empty list.  derive is
metamask_to_ckb_address, treated as an abstract external encoder; the source
appends its output only when it is nonempty and not already present in the
native list. -/
def get_user_dao_addresses (derive : String → String) :
    Option Profile → List String
  | none => []
  | some user =>
    let addresses := user.neuron_addresses
    if user.web3_public_key ≠ "" then
      let pwlock_address := derive user.web3_public_key
      if pwlock_address ≠ "" ∧ pwlock_address ∉ addresses then
        addresses ++ [pwlock_address]
      else addresses
    else addresses

/-- A vote after the enrichment loop of process_option: the per-address weight
list and the voter-level total weight_calc added on lines 346-371. -/
structure EnrichedVote where
  vote : Vote
  weight_list : List (String × ℤ)
  weight_calc : ℤ
deriving DecidableEq, Repr

/-- Translation of the enrichment loop body of process_option
(lines 346-371): a falsy user_id (absent or 0) gets an empty weight list and
total 0 with no profile or weight lookup; a voter without addresses likewise;
otherwise one weight per address is fetched with page size 20 and the total is
their sum.  cellsOf gives, per address, the explorer page results; profiles is
the profile endpoint. -/
def enrich_vote (profiles : Nat → Option Profile)
    (cellsOf : String → List CellPageResult) (derive : String → String)
    (v : Vote) : EnrichedVote :=
  match v.user_id with
  | none => ⟨v, [], 0⟩
  | some uid =>
    if uid = 0 then ⟨v, [], 0⟩
    else
      let addresses := get_user_dao_addresses derive (profiles uid)
      if addresses.isEmpty then ⟨v, [], 0⟩
      else
        let weight_list := addresses.map
          (fun a => (a, get_address_onchain_weight 20 (cellsOf a)))
        ⟨v, weight_list, (weight_list.map Prod.snd).sum⟩

/-- One exported row (the dict built on lines 406-426), in source field
order: nickname, userid, total weight(metaforo), total weight(on chain,
floored), address, address weight(floored), need_review, explorer_url. -/
structure ExportRecord where
  nickname : String
  userid : Option Nat
  total_weight_metaforo : ℤ
  total_weight_onchain_floored : ℤ
  address : String
  address_weight_floored : ℤ
  need_review : Bool
  explorer_url : String
deriving DecidableEq, Repr

/-- The explorer_url field value of an address row (line 414). -/
def explorer_url_for (address : String) : String :=
  "https://explorer.app5.org/address/" ++ address

/-- Translation of the export step of process_option (lines 393-426):
need_review is computed once per vote, before the per-address loop, as
reported weight differing from the floored on-chain total; then one row per
address is emitted, or a single sentinel row with empty address and address
weight 0 when the weight list is empty. -/
def reconcile_vote (v : EnrichedVote) : List ExportRecord :=
  let need_review := decide (v.vote.weight ≠ ⌊((v.weight_calc : ℚ))⌋)
  if v.weight_list.isEmpty then
    [⟨v.vote.name, v.vote.user_id, v.vote.weight, ⌊((v.weight_calc : ℚ))⌋,
      "", 0, need_review, ""⟩]
  else
    v.weight_list.map (fun item =>
      ⟨v.vote.name, v.vote.user_id, v.vote.weight, ⌊((v.weight_calc : ℚ))⌋,
        item.1, ⌊((item.2 : ℚ))⌋, need_review, explorer_url_for item.1⟩)

/-- Translation of process_option (lines 313-453) without the file writing
glue: fetch all votes for the option; a failed or empty vote list surfaces as
none (the source checks a falsy voters_data on line 332); otherwise enrich
every vote and export the concatenated rows as the option batch. -/
def process_option (profiles : Nat → Option Profile)
    (cellsOf : String → List CellPageResult) (derive : String → String)
    (pages : List VotePageResult) : Option (List ExportRecord) :=
  match (get_all_votes pages).1 with
  | none => none
  | some voters_data =>
    if voters_data.isEmpty then none
    else
      some (((voters_data.map (enrich_vote profiles cellsOf derive)).map
        reconcile_vote).flatten)

/-- Translation of the per-option loop of main (lines 492-498): every option
is handed to process_option; a successful batch is collected, a failed option
contributes nothing, and the loop continues either way. -/
def run_options (handler : Nat → Option (List ExportRecord)) :
    List Nat → List (List ExportRecord)
  | [] => []
  | o :: rest =>
    (match handler o with
      | some batch => [batch]
      | none => []) ++ run_options handler rest

/-- Modelled from the spec: the section 3 invariant reading of the voter
total, in which floors are applied only at comparison time and never
mid-aggregation, so the floored voter total is the floor of the sum of the
exact unfloored per-address capacity totals.  Used only to compare with the
implementation, which floors per address. -/
def voter_total_spec_unfloored (cellsOf : String → List CellPageResult)
    (page_size : Nat) (addresses : List String) : ℤ :=
  ⌊(addresses.map (fun a => (fetch_cells_aux page_size 1 (cellsOf a)).1)).sum / 10 ^ 8⌋

/-! ## Helper lemmas -/

/-- Sample vote used by the concrete pagination scenarios. -/
def sampleVote : Vote := ⟨"voter", some 1, 0⟩

/-- Sample deposit cell used by the concrete pagination scenarios. -/
def sampleCell : Cell := ⟨"nervos_dao_deposit", 100000000⟩

lemma requestAttemptLoop_const_err (oracle : Nat → Except ReqError α)
    (e : ReqError) (h : ∀ n, oracle n = Except.error e)
    (hr : is_retryable_error e = true) :
    ∀ remaining attempt,
      requestAttemptLoop oracle attempt remaining = (Except.error e, remaining + 1) := by
  intro remaining
  induction remaining with
  | zero => intro attempt; simp [requestAttemptLoop, h]
  | succ r ih => intro attempt; simp [requestAttemptLoop, h, hr, ih (attempt + 1)]

lemma lowerString_get : lowerString "get" = "get" := by decide

/-! ## Claim theorems -/

/-- C5: the request executor retries exactly the connection, timeout, 429 and
5xx failures; an endpoint that always fails retryably exhausts
max_retries + 1 = 4 attempts and the last error is re-raised untouched; a
non-retryable failure propagates after a single attempt, and an unsupported
method raises at once on the single loop iteration without any request. -/
theorem retry_policy (α : Type) :
    (∀ e, is_retryable_error e = true ↔
      (e = ReqError.connectionError ∨ e = ReqError.timeout ∨
        ∃ s, e = ReqError.httpError (some s) ∧ (s = 429 ∨ 500 ≤ s)))
    ∧ (∀ (oracle : Nat → Except ReqError α) (e : ReqError),
        (∀ n, oracle n = Except.error e) → is_retryable_error e = true →
        request_with_retry "get" 3 oracle = (ReqResult.raised e, 4))
    ∧ (∀ (oracle : Nat → Except ReqError α) (e : ReqError),
        oracle 0 = Except.error e → is_retryable_error e = false →
        request_with_retry "get" 3 oracle = (ReqResult.raised e, 1))
    ∧ (∀ oracle : Nat → Except ReqError α,
        request_with_retry "delete" 3 oracle = (ReqResult.valueError, 1)) := by
  refine ⟨?_, ?_, ?_, ?_⟩
  · intro e
    cases e with
    | connectionError => simp [is_retryable_error]
    | timeout => simp [is_retryable_error]
    | httpError st =>
      cases st with
      | none => simp [is_retryable_error]
      | some s =>
        simp only [is_retryable_error, Bool.or_eq_true, beq_iff_eq,
          decide_eq_true_eq]
        constructor
        · rintro (h | h) <;> exact Or.inr (Or.inr ⟨s, rfl, by omega⟩)
        · rintro (h | h | ⟨s2, hs2, h⟩)
          · exact absurd h (by simp)
          · exact absurd h (by simp)
          · cases hs2
            omega
    | otherError => simp [is_retryable_error]
  · intro oracle e h hr
    rw [request_with_retry, if_pos (Or.inl lowerString_get),
      requestAttemptLoop_const_err oracle e h hr 3 0]
  · intro oracle e h0 hnr
    rw [request_with_retry, if_pos (Or.inl lowerString_get)]
    simp [requestAttemptLoop, h0, hnr]
  · intro oracle
    rw [request_with_retry, if_neg (by decide)]

/-- Witness for retry_policy: the always-500 endpoint makes exactly 4 attempts
and re-raises HTTP 500; a 404 propagates after one attempt. -/
theorem retry_policy_witness :
    ((∀ n : Nat,
        (fun _ => (Except.error (ReqError.httpError (some 500)) : Except ReqError Nat)) n
          = Except.error (ReqError.httpError (some 500)))
      ∧ is_retryable_error (ReqError.httpError (some 500)) = true
      ∧ is_retryable_error (ReqError.httpError (some 404)) = false)
    ∧ request_with_retry "get" 3
        (fun _ => (Except.error (ReqError.httpError (some 500)) : Except ReqError Nat))
        = (ReqResult.raised (ReqError.httpError (some 500)), 4)
    ∧ request_with_retry "get" 3
        (fun _ => (Except.error (ReqError.httpError (some 404)) : Except ReqError Nat))
        = (ReqResult.raised (ReqError.httpError (some 404)), 1) :=
  ⟨⟨fun _ => rfl, by decide, by decide⟩,
    (retry_policy Nat).2.1 _ _ (fun _ => rfl) (by decide),
    (retry_policy Nat).2.2.1 _ _ rfl (by decide)⟩

/-- C4: the vote paginator requests 1-indexed pages and stops only on an empty
page: on page bodies of sizes 5, 5, 0 it yields exactly 10 votes with exactly
the page requests 1, 2, 3, while a short nonempty page does not stop it; the
cell paginator stops on a short page: on page bodies of sizes 20, 20, 7 at
page size 20 it issues exactly the page requests 1, 2, 3 and stops after the
short page. -/
theorem pagination_request_counts :
    (get_all_votes [VotePageResult.success (List.replicate 5 sampleVote),
        VotePageResult.success (List.replicate 5 sampleVote),
        VotePageResult.success []]).1.map List.length = some 10
    ∧ (get_all_votes [VotePageResult.success (List.replicate 5 sampleVote),
        VotePageResult.success (List.replicate 5 sampleVote),
        VotePageResult.success []]).2 = [1, 2, 3]
    ∧ (get_all_votes [VotePageResult.success (List.replicate 5 sampleVote),
        VotePageResult.success (List.replicate 3 sampleVote),
        VotePageResult.success []]).2 = [1, 2, 3]
    ∧ (fetch_cells_aux 20 1 [CellPageResult.ok (List.replicate 20 sampleCell),
        CellPageResult.ok (List.replicate 20 sampleCell),
        CellPageResult.ok (List.replicate 7 sampleCell)]).2 = [1, 2, 3] := by
  refine ⟨by decide, by decide, by decide, ?_⟩
  simp [fetch_cells_aux]

lemma get_all_votes_aux_fail (f : VotePageResult)
    (hf : f = VotePageResult.envelopeFail ∨ f = VotePageResult.netFail)
    (rest : List VotePageResult) :
    ∀ (goodPages : List (List Vote)), (∀ p ∈ goodPages, p ≠ []) → ∀ page,
      (get_all_votes_aux page
        (goodPages.map VotePageResult.success ++ f :: rest)).1 = none := by
  intro goodPages
  induction goodPages with
  | nil =>
    intro _ page
    rcases hf with h | h <;> subst h <;> simp [get_all_votes_aux]
  | cons p ps ih =>
    intro hne page
    have hp : ¬ p.isEmpty := by
      simp only [List.isEmpty_iff]
      exact hne p (by simp)
    simp only [List.map_cons, List.cons_append, get_all_votes_aux, if_neg hp,
      List.append_eq]
    rw [ih (fun q hq => hne q (by simp [hq])) (page + 1)]
    rfl

/-- C6: vote listing is all-or-nothing per option: a non-retryable failure or
a non-success envelope at any page makes get_all_votes return none, never the
partial list of the pages fetched before the failure, and process_option then
surfaces the option as no data. -/
theorem vote_listing_all_or_nothing :
    ∀ (goodPages : List (List Vote)) (f : VotePageResult)
      (rest : List VotePageResult) (profiles : Nat → Option Profile)
      (cellsOf : String → List CellPageResult) (derive : String → String),
      (∀ p ∈ goodPages, p ≠ []) →
      (f = VotePageResult.envelopeFail ∨ f = VotePageResult.netFail) →
      (get_all_votes (goodPages.map VotePageResult.success ++ f :: rest)).1 = none
      ∧ process_option profiles cellsOf derive
          (goodPages.map VotePageResult.success ++ f :: rest) = none := by
  intro goodPages f rest profiles cellsOf derive hne hf
  have h1 : (get_all_votes (goodPages.map VotePageResult.success ++ f :: rest)).1
      = none := get_all_votes_aux_fail f hf rest goodPages hne 1
  refine ⟨h1, ?_⟩
  rw [process_option, h1]

/-- Witness for vote_listing_all_or_nothing: one successful nonempty page
followed by a network failure yields no data at all. -/
theorem vote_listing_all_or_nothing_witness :
    ((∀ p ∈ [[sampleVote]], p ≠ [])
      ∧ (VotePageResult.netFail = VotePageResult.envelopeFail
          ∨ VotePageResult.netFail = VotePageResult.netFail))
    ∧ (get_all_votes ([[sampleVote]].map VotePageResult.success
        ++ VotePageResult.netFail :: [])).1 = none
    ∧ process_option (fun _ => none) (fun _ => []) (fun _ => "")
        ([[sampleVote]].map VotePageResult.success
          ++ VotePageResult.netFail :: []) = none :=
  ⟨⟨by decide, Or.inr rfl⟩,
    vote_listing_all_or_nothing [[sampleVote]] VotePageResult.netFail []
      (fun _ => none) (fun _ => []) (fun _ => "") (by decide) (Or.inr rfl)⟩

lemma fetch_cells_aux_truncate (page_size : Nat) (f : CellPageResult)
    (hf : f = CellPageResult.notFound404 ∨ f = CellPageResult.otherFail
      ∨ f = CellPageResult.parseError)
    (rest : List CellPageResult) :
    ∀ (fullPages : List (List Cell)), (∀ p ∈ fullPages, p.length = page_size) →
    ∀ page,
      (fetch_cells_aux page_size page
        (fullPages.map CellPageResult.ok ++ f :: rest)).1
        = (fullPages.map sumDeposits).sum := by
  intro fullPages
  induction fullPages with
  | nil =>
    intro _ page
    rcases hf with h | h | h <;> subst h <;> simp [fetch_cells_aux]
  | cons p ps ih =>
    intro hfull page
    have hp : ¬ p.length < page_size := by
      rw [hfull p (by simp)]
      omega
    simp only [List.map_cons, List.cons_append, fetch_cells_aux, if_neg hp,
      List.append_eq]
    rw [List.sum_cons, ← ih (fun q hq => hfull q (by simp [hq])) (page + 1)]

/-- C7: per-address weight lookup never raises: 404 is excluded from the
retry-eligible error set, a 404 on the first page (address never seen
on-chain) yields weight 0, and any failure after k fully-summed pages returns
the floored partial sum of those k pages instead of failing. -/
theorem weight_lookup_best_effort :
    is_retryable_error (ReqError.httpError (some 404)) = false
    ∧ (∀ page_size, get_address_onchain_weight page_size
        [CellPageResult.notFound404] = 0)
    ∧ (∀ (fullPages : List (List Cell)) (page_size : Nat) (f : CellPageResult)
        (rest : List CellPageResult),
        (∀ p ∈ fullPages, p.length = page_size) →
        (f = CellPageResult.notFound404 ∨ f = CellPageResult.otherFail
          ∨ f = CellPageResult.parseError) →
        get_address_onchain_weight page_size
            (fullPages.map CellPageResult.ok ++ f :: rest)
          = ⌊(fullPages.map sumDeposits).sum / 10 ^ 8⌋) := by
  refine ⟨by decide, ?_, ?_⟩
  · intro page_size
    simp [get_address_onchain_weight, fetch_cells_aux]
  · intro fullPages page_size f rest hfull hf
    rw [get_address_onchain_weight,
      fetch_cells_aux_truncate page_size f hf rest fullPages hfull 1]

/-- Witness for weight_lookup_best_effort: two full pages of one deposit cell
each at page size 1, then a hard failure, give the floored sum of the two full
pages. -/
theorem weight_lookup_best_effort_witness :
    ((∀ p ∈ [[sampleCell], [sampleCell]], List.length p = 1)
      ∧ (CellPageResult.otherFail = CellPageResult.notFound404
          ∨ CellPageResult.otherFail = CellPageResult.otherFail
          ∨ CellPageResult.otherFail = CellPageResult.parseError))
    ∧ get_address_onchain_weight 1
        ([[sampleCell], [sampleCell]].map CellPageResult.ok
          ++ CellPageResult.otherFail :: [])
      = ⌊([[sampleCell], [sampleCell]].map sumDeposits).sum / 10 ^ 8⌋ :=
  ⟨⟨by decide, Or.inr (Or.inl rfl)⟩,
    weight_lookup_best_effort.2.2 [[sampleCell], [sampleCell]] 1
      CellPageResult.otherFail [] (by decide) (Or.inr (Or.inl rfl))⟩

lemma sumDeposits_append (l1 l2 : List Cell) :
    sumDeposits (l1 ++ l2) = sumDeposits l1 + sumDeposits l2 := by
  induction l1 with
  | nil => simp [sumDeposits]
  | cons c rest ih => simp [sumDeposits, ih]; ring

lemma fetch_chunks_sum (page_size : Nat) (hps : 0 < page_size) :
    ∀ (n : Nat) (cells : List Cell), cells.length ≤ n → ∀ page,
      (fetch_cells_aux page_size page
        ((chunkPages page_size cells).map CellPageResult.ok)).1
        = sumDeposits cells := by
  intro n
  induction n with
  | zero =>
    intro cells hlen page
    have h : cells = [] := List.length_eq_zero.mp (Nat.le_zero.mp hlen)
    subst h
    simp [chunkPages, fetch_cells_aux, sumDeposits]
  | succ n ih =>
    intro cells hlen page
    rcases cells with _ | ⟨x, xs⟩
    · simp [chunkPages, fetch_cells_aux, sumDeposits]
    · rcases page_size with _ | ps
      · omega
      · rw [chunkPages]
        simp only [List.map_cons]
        by_cases hshort : ((x :: xs).take (ps + 1)).length < ps + 1
        · have hlt : (x :: xs).length < ps + 1 := by
            rcases Nat.lt_or_ge (x :: xs).length (ps + 1) with h | h
            · exact h
            · exact absurd (by rw [List.length_take]; omega :
                ((x :: xs).take (ps + 1)).length = ps + 1) (by omega)
          have htake : (x :: xs).take (ps + 1) = x :: xs :=
            List.take_of_length_le (by omega)
          have hdrop : (x :: xs).drop (ps + 1) = [] :=
            List.drop_eq_nil_of_le (by omega)
          rw [htake, hdrop]
          simp only [chunkPages, List.map_nil, fetch_cells_aux]
          rw [if_pos (htake ▸ hshort)]
        · simp only [fetch_cells_aux, if_neg hshort]
          have hlen2 : ((x :: xs).drop (ps + 1)).length ≤ n := by
            simp only [List.length_drop, List.length_cons]
            simp only [List.length_cons] at hlen
            omega
          rw [ih ((x :: xs).drop (ps + 1)) hlen2 (page + 1),
            ← sumDeposits_append, List.take_append_drop]

/-- C2: fetching one underlying cell list through the paged loop gives the
floor of the sum of the capacities of its deposit cells divided by 10 ^ 8;
cells of any other type contribute nothing to the sum, and the result is the
same integer for any two positive page sizes over the same cell list. -/
theorem onchain_weight_deposit_floor :
    ∀ (cells : List Cell) (ps1 ps2 : Nat), 0 < ps1 → 0 < ps2 →
      get_address_onchain_weight ps1 ((chunkPages ps1 cells).map CellPageResult.ok)
        = ⌊sumDeposits cells / 10 ^ 8⌋
      ∧ get_address_onchain_weight ps1 ((chunkPages ps1 cells).map CellPageResult.ok)
        = get_address_onchain_weight ps2 ((chunkPages ps2 cells).map CellPageResult.ok)
      ∧ (∀ c : Cell, c.cell_type ≠ "nervos_dao_deposit" →
          sumDeposits (c :: cells) = sumDeposits cells) := by
  intro cells ps1 ps2 h1 h2
  have e1 : get_address_onchain_weight ps1
      ((chunkPages ps1 cells).map CellPageResult.ok)
      = ⌊sumDeposits cells / 10 ^ 8⌋ := by
    rw [get_address_onchain_weight,
      fetch_chunks_sum ps1 h1 cells.length cells le_rfl 1]
  have e2 : get_address_onchain_weight ps2
      ((chunkPages ps2 cells).map CellPageResult.ok)
      = ⌊sumDeposits cells / 10 ^ 8⌋ := by
    rw [get_address_onchain_weight,
      fetch_chunks_sum ps2 h2 cells.length cells le_rfl 1]
  refine ⟨e1, by rw [e1, e2], ?_⟩
  intro c hc
  simp [sumDeposits, hc]

/-- Witness for onchain_weight_deposit_floor: a two-cell list, one deposit and
one free cell, fetched at page sizes 1 and 3. -/
theorem onchain_weight_deposit_floor_witness :
    ((0 : Nat) < 1 ∧ (0 : Nat) < 3)
    ∧ get_address_onchain_weight 1
        ((chunkPages 1 [sampleCell, ⟨"free", 7⟩]).map CellPageResult.ok)
      = ⌊sumDeposits [sampleCell, ⟨"free", 7⟩] / 10 ^ 8⌋
    ∧ get_address_onchain_weight 1
        ((chunkPages 1 [sampleCell, ⟨"free", 7⟩]).map CellPageResult.ok)
      = get_address_onchain_weight 3
          ((chunkPages 3 [sampleCell, ⟨"free", 7⟩]).map CellPageResult.ok) :=
  ⟨⟨by decide, by decide⟩,
    (onchain_weight_deposit_floor [sampleCell, ⟨"free", 7⟩] 1 3
      (by decide) (by decide)).1,
    (onchain_weight_deposit_floor [sampleCell, ⟨"free", 7⟩] 1 3
      (by decide) (by decide)).2.1⟩

lemma reconcile_vote_fields (v : EnrichedVote) (r : ExportRecord)
    (hr : r ∈ reconcile_vote v) :
    r.need_review = decide (v.vote.weight ≠ ⌊((v.weight_calc : ℚ))⌋)
    ∧ r.total_weight_onchain_floored = ⌊((v.weight_calc : ℚ))⌋
    ∧ r.total_weight_metaforo = v.vote.weight := by
  by_cases h : v.weight_list.isEmpty
  · simp only [reconcile_vote, h, if_true, List.mem_singleton] at hr
    subst hr
    exact ⟨rfl, rfl, rfl⟩
  · simp only [reconcile_vote, h, Bool.false_eq_true, if_false, List.mem_map] at hr
    obtain ⟨item, _, hrr⟩ := hr
    subst hrr
    exact ⟨rfl, rfl, rfl⟩

lemma enrich_vote_vote (profiles : Nat → Option Profile)
    (cellsOf : String → List CellPageResult) (derive : String → String)
    (v : Vote) : (enrich_vote profiles cellsOf derive v).vote = v := by
  cases hu : v.user_id with
  | none => simp [enrich_vote, hu]
  | some uid =>
    simp only [enrich_vote, hu]
    split_ifs <;> rfl

lemma enrich_weight_calc_sum (profiles : Nat → Option Profile)
    (cellsOf : String → List CellPageResult) (derive : String → String)
    (v : Vote) :
    (enrich_vote profiles cellsOf derive v).weight_calc
      = ((enrich_vote profiles cellsOf derive v).weight_list.map Prod.snd).sum := by
  cases hu : v.user_id with
  | none => simp [enrich_vote, hu]
  | some uid =>
    simp only [enrich_vote, hu]
    split_ifs <;> simp

/-- C1: every exported record of one enriched vote carries the need_review
flag computed once per voter as the platform-reported weight differing from
the floor of the voter-level sum of the per-address weights, and any two
records of the same voter share the same flag and the same voter-level
totals. -/
theorem needs_review_once_per_voter :
    ∀ (profiles : Nat → Option Profile) (cellsOf : String → List CellPageResult)
      (derive : String → String) (v : Vote) (r r2 : ExportRecord),
      r ∈ reconcile_vote (enrich_vote profiles cellsOf derive v) →
      r2 ∈ reconcile_vote (enrich_vote profiles cellsOf derive v) →
      (r.need_review = true ↔
          v.weight ≠ ⌊((((enrich_vote profiles cellsOf derive v).weight_list.map
            Prod.snd).sum : ℤ) : ℚ)⌋)
      ∧ r.total_weight_onchain_floored
          = ⌊((((enrich_vote profiles cellsOf derive v).weight_list.map
            Prod.snd).sum : ℤ) : ℚ)⌋
      ∧ r.total_weight_metaforo = v.weight
      ∧ r.need_review = r2.need_review
      ∧ r.total_weight_onchain_floored = r2.total_weight_onchain_floored
      ∧ r.total_weight_metaforo = r2.total_weight_metaforo := by
  intro profiles cellsOf derive v r r2 hr hr2
  obtain ⟨h1, h2, h3⟩ := reconcile_vote_fields _ r hr
  obtain ⟨g1, g2, g3⟩ := reconcile_vote_fields _ r2 hr2
  have hv := enrich_vote_vote profiles cellsOf derive v
  have hs := enrich_weight_calc_sum profiles cellsOf derive v
  rw [hv] at h1 h3 g1 g3
  rw [hs] at h1 h2 g1 g2
  refine ⟨?_, h2, h3, ?_, ?_, ?_⟩
  · rw [h1, decide_eq_true_eq]
  · rw [h1, g1]
  · rw [h2, g2]
  · rw [h3, g3]

/-- Oracle returning no profile for any user, used by concrete witnesses. -/
def wProfiles : Nat → Option Profile := fun _ => none

/-- Oracle returning no cell pages for any address, used by witnesses. -/
def wCellsOf : String → List CellPageResult := fun _ => []

/-- Address bridge returning the empty string, used by witnesses. -/
def wDerive : String → String := fun _ => ""

/-- A vote with a missing voter id and reported weight 1. -/
def wVote : Vote := ⟨"V", none, 1⟩

/-- The sentinel record exported for wVote. -/
def wRecord : ExportRecord := ⟨"V", none, 1, 0, "", 0, true, ""⟩

/-- Witness for needs_review_once_per_voter at the sentinel record of a voter
with no id. -/
theorem needs_review_once_per_voter_witness :
    wRecord ∈ reconcile_vote (enrich_vote wProfiles wCellsOf wDerive wVote)
    ∧ (wRecord.need_review = true ↔
        wVote.weight ≠ ⌊((((enrich_vote wProfiles wCellsOf wDerive wVote).weight_list.map
          Prod.snd).sum : ℤ) : ℚ)⌋)
    ∧ wRecord.total_weight_metaforo = wVote.weight := by
  have hm : wRecord ∈ reconcile_vote (enrich_vote wProfiles wCellsOf wDerive wVote) := by
    norm_num [reconcile_vote, enrich_vote, wProfiles, wCellsOf, wDerive, wVote, wRecord]
  have h := needs_review_once_per_voter wProfiles wCellsOf wDerive wVote
    wRecord wRecord hm hm
  exact ⟨hm, h.1, h.2.2.1⟩

/-- Cell oracle giving one voter two addresses with deposit totals of 600.5
and 399.5 CKB worth of shannons respectively. -/
def cexCellsOf : String → List CellPageResult := fun a =>
  if a = "addr1" then [CellPageResult.ok [⟨"nervos_dao_deposit", 60050000000⟩]]
  else [CellPageResult.ok [⟨"nervos_dao_deposit", 39950000000⟩]]

/-- Profile oracle binding the two addresses to every user. -/
def cexProfiles : Nat → Option Profile := fun _ => some ⟨["addr1", "addr2"], ""⟩

/-- A vote whose reported weight 1000 equals the floor of the exact unfloored
capacity total but not the sum of the per-address floored weights. -/
def cexVote : Vote := ⟨"V", some 1, 1000⟩

lemma cex_weight_addr1 : get_address_onchain_weight 20 (cexCellsOf "addr1") = 600 := by
  simp only [cexCellsOf, if_pos rfl, get_address_onchain_weight, fetch_cells_aux,
    sumDeposits]
  norm_num [Rat.floor_def]

lemma cex_weight_addr2 : get_address_onchain_weight 20 (cexCellsOf "addr2") = 399 := by
  simp only [cexCellsOf, if_neg (by decide : ¬ ("addr2" : String) = "addr1"),
    get_address_onchain_weight, fetch_cells_aux, sumDeposits]
  norm_num [Rat.floor_def]

lemma cex_enrich :
    enrich_vote cexProfiles cexCellsOf (fun _ => "") cexVote
      = ⟨cexVote, [("addr1", 600), ("addr2", 399)], 999⟩ := by
  have haddr : get_user_dao_addresses (fun _ => "") (cexProfiles 1)
      = ["addr1", "addr2"] := by
    simp [cexProfiles, get_user_dao_addresses]
  simp [enrich_vote, cexVote, haddr, cex_weight_addr1, cex_weight_addr2]

/-- C3 counterexample: the implementation floors per address (600.5 to 600 and
399.5 to 399), so the voter total that is compared against the reported
weight is 999, while the floor of the sum of the exact unfloored per-address
capacity weights is 1000; the exported flag is hence true although the
reported weight 1000 equals the spec-side unfloored total. -/
theorem floor_mid_aggregation_cex :
    (enrich_vote cexProfiles cexCellsOf (fun _ => "") cexVote).weight_calc = 999
    ∧ voter_total_spec_unfloored cexCellsOf 20 ["addr1", "addr2"] = 1000
    ∧ cexVote.weight = voter_total_spec_unfloored cexCellsOf 20 ["addr1", "addr2"]
    ∧ (reconcile_vote (enrich_vote cexProfiles cexCellsOf (fun _ => "") cexVote)).map
        ExportRecord.need_review = [true, true] := by
  have hspec : voter_total_spec_unfloored cexCellsOf 20 ["addr1", "addr2"] = 1000 := by
    simp only [voter_total_spec_unfloored, cexCellsOf, List.map_cons, List.map_nil,
      if_pos rfl, if_neg (by decide : ¬ ("addr2" : String) = "addr1"),
      fetch_cells_aux, sumDeposits]
    norm_num [Rat.floor_def]
  refine ⟨by rw [cex_enrich], hspec, by rw [hspec]; rfl, ?_⟩
  rw [cex_enrich]
  norm_num [reconcile_vote, cexVote]

/-- C3 amended: flooring is applied per address inside the weight aggregator,
the voter-level total compared against the reported weight is the sum of the
per-address already-floored weights, and the floor taken at export time is a
no-op on that integer sum. -/
theorem floor_per_address_amended :
    ∀ (profiles : Nat → Option Profile) (cellsOf : String → List CellPageResult)
      (derive : String → String) (v : Vote) (uid : Nat),
      v.user_id = some uid → uid ≠ 0 →
      get_user_dao_addresses derive (profiles uid) ≠ [] →
      (enrich_vote profiles cellsOf derive v).weight_calc
        = ((get_user_dao_addresses derive (profiles uid)).map
            (fun a => get_address_onchain_weight 20 (cellsOf a))).sum
      ∧ ⌊(((enrich_vote profiles cellsOf derive v).weight_calc : ℤ) : ℚ)⌋
          = (enrich_vote profiles cellsOf derive v).weight_calc := by
  intro profiles cellsOf derive v uid hu h0 hne
  have hemp : ¬ (get_user_dao_addresses derive (profiles uid)).isEmpty = true := by
    simpa [List.isEmpty_iff] using hne
  refine ⟨?_, Int.floor_intCast _⟩
  simp [enrich_vote, hu, h0, hemp, List.map_map, Function.comp_def]

/-- Witness for floor_per_address_amended at the two-address voter of the
counterexample oracle. -/
theorem floor_per_address_amended_witness :
    (cexVote.user_id = some 1 ∧ (1 : Nat) ≠ 0
      ∧ get_user_dao_addresses (fun _ => "") (cexProfiles 1) ≠ [])
    ∧ (enrich_vote cexProfiles cexCellsOf (fun _ => "") cexVote).weight_calc
        = ((get_user_dao_addresses (fun _ => "") (cexProfiles 1)).map
            (fun a => get_address_onchain_weight 20 (cexCellsOf a))).sum :=
  ⟨⟨rfl, by decide, by decide⟩,
    (floor_per_address_amended cexProfiles cexCellsOf (fun _ => "") cexVote 1 rfl
      (by decide) (by decide)).1⟩

/-- C8 counterexample: a profile whose native address list already contains a
duplicate is returned verbatim, so the resolved address list is not
duplicate-free. -/
theorem resolve_addresses_duplicates_cex :
    get_user_dao_addresses (fun _ => "") (some ⟨["addr1", "addr1"], ""⟩)
      = ["addr1", "addr1"]
    ∧ ¬ (get_user_dao_addresses (fun _ => "")
        (some ⟨["addr1", "addr1"], ""⟩)).Nodup :=
  ⟨by decide, by decide⟩

/-- C8 amended: address resolution starts from the native list verbatim
(native duplicates are kept as given); a nonempty foreign key contributes
exactly one bridge-derived address, appended only when it is nonempty and not
already present in the native list under string equality, so a duplicate-free
native list stays duplicate-free; a missing profile or an empty profile
yields an empty list, not an error, and a voter whose resolution is empty is
enriched with an empty weight list and an on-chain total of exactly zero. -/
theorem resolve_addresses_amended :
    ∀ (derive : String → String) (p : Profile)
      (profiles : Nat → Option Profile) (cellsOf : String → List CellPageResult)
      (v : Vote) (uid : Nat),
      get_user_dao_addresses derive none = []
      ∧ (p.web3_public_key = "" →
          get_user_dao_addresses derive (some p) = p.neuron_addresses)
      ∧ (p.web3_public_key ≠ "" →
          get_user_dao_addresses derive (some p)
            = if derive p.web3_public_key ≠ ""
                ∧ derive p.web3_public_key ∉ p.neuron_addresses
              then p.neuron_addresses ++ [derive p.web3_public_key]
              else p.neuron_addresses)
      ∧ (p.neuron_addresses.Nodup → (get_user_dao_addresses derive (some p)).Nodup)
      ∧ (v.user_id = some uid → uid ≠ 0 →
          get_user_dao_addresses derive (profiles uid) = [] →
          (enrich_vote profiles cellsOf derive v).weight_list = []
          ∧ (enrich_vote profiles cellsOf derive v).weight_calc = 0) := by
  intro derive p profiles cellsOf v uid
  have hbranch : p.web3_public_key ≠ "" →
      get_user_dao_addresses derive (some p)
        = if derive p.web3_public_key ≠ ""
            ∧ derive p.web3_public_key ∉ p.neuron_addresses
          then p.neuron_addresses ++ [derive p.web3_public_key]
          else p.neuron_addresses := by
    intro hk
    simp [get_user_dao_addresses, hk]
  refine ⟨rfl, ?_, hbranch, ?_, ?_⟩
  · intro hk
    simp [get_user_dao_addresses, hk]
  · intro hn
    by_cases hk : p.web3_public_key = ""
    · simp [get_user_dao_addresses, hk, hn]
    · rw [hbranch hk]
      by_cases hd : derive p.web3_public_key ≠ ""
          ∧ derive p.web3_public_key ∉ p.neuron_addresses
      · rw [if_pos hd]
        refine hn.append (List.nodup_singleton _) ?_
        intro a ha hb
        rw [List.mem_singleton] at hb
        subst hb
        exact hd.2 ha
      · rw [if_neg hd]
        exact hn
  · intro hu h0 hres
    constructor <;> simp [enrich_vote, hu, h0, hres]

/-- The profile used by the C8 witness: one native address and a foreign key. -/
def wBridgeProfile : Profile := ⟨["a"], "k"⟩

/-- The bridge used by the C8 witness, deriving a fresh address. -/
def wBridge : String → String := fun s => s ++ "x"

/-- Witness for resolve_addresses_amended: a profile with one native address
and a foreign key deriving a fresh address. -/
theorem resolve_addresses_amended_witness :
    (wBridgeProfile.web3_public_key ≠ ""
      ∧ List.Nodup wBridgeProfile.neuron_addresses)
    ∧ get_user_dao_addresses wBridge (some wBridgeProfile)
        = (if wBridge wBridgeProfile.web3_public_key ≠ ""
            ∧ wBridge wBridgeProfile.web3_public_key ∉ wBridgeProfile.neuron_addresses
          then wBridgeProfile.neuron_addresses
            ++ [wBridge wBridgeProfile.web3_public_key]
          else wBridgeProfile.neuron_addresses)
    ∧ List.Nodup (get_user_dao_addresses wBridge (some wBridgeProfile)) :=
  ⟨⟨by decide, by decide⟩,
    (resolve_addresses_amended wBridge wBridgeProfile wProfiles wCellsOf
      wVote 1).2.2.1 (by decide),
    (resolve_addresses_amended wBridge wBridgeProfile wProfiles wCellsOf
      wVote 1).2.2.2.1 (by decide)⟩

lemma run_options_flatten (handler : Nat → Option (List ExportRecord)) :
    ∀ opts : List Nat,
      run_options handler opts = (opts.map (fun o => (handler o).toList)).flatten := by
  intro opts
  induction opts with
  | nil => simp [run_options]
  | cons o rest ih => cases h : handler o <;> simp [run_options, h, ih]

/-- C9: the main loop hands every option to its handler independently, so the
collected output is one batch per successful option and a failed option
leaves the remaining options attempted; within a batch each enriched vote
contributes one record per bound address, or exactly one sentinel record with
an empty address when the voter has no addresses. -/
theorem per_option_batches :
    (∀ (handler : Nat → Option (List ExportRecord)) (opts : List Nat),
      run_options handler opts = (opts.map (fun o => (handler o).toList)).flatten)
    ∧ (∀ v : EnrichedVote, v.weight_list ≠ [] →
        (reconcile_vote v).map ExportRecord.address = v.weight_list.map Prod.fst)
    ∧ (∀ v : EnrichedVote, v.weight_list = [] →
        (reconcile_vote v).length = 1
        ∧ (reconcile_vote v).map ExportRecord.address = [""]) := by
  refine ⟨run_options_flatten, ?_, ?_⟩
  · intro v hv
    have h : ¬ v.weight_list.isEmpty = true := by
      simpa [List.isEmpty_iff] using hv
    simp [reconcile_vote, h, List.map_map, Function.comp_def]
  · intro v hv
    simp [reconcile_vote, hv]

/-- Witness for per_option_batches: a voter with one bound address yields one
record carrying that address. -/
theorem per_option_batches_witness :
    ((EnrichedVote.mk wVote [("a", 1)] 1).weight_list ≠ []
      ∧ (EnrichedVote.mk wVote [] 0).weight_list = [])
    ∧ (reconcile_vote ⟨wVote, [("a", 1)], 1⟩).map ExportRecord.address
        = (EnrichedVote.mk wVote [("a", 1)] 1).weight_list.map Prod.fst
    ∧ (reconcile_vote ⟨wVote, [], 0⟩).length = 1 :=
  ⟨⟨by decide, rfl⟩,
    per_option_batches.2.1 ⟨wVote, [("a", 1)], 1⟩ (by decide),
    (per_option_batches.2.2 ⟨wVote, [], 0⟩ rfl).1⟩

/-- C10: a vote whose voter id is missing or zero is enriched without any
profile or weight lookup (the enrichment does not depend on the oracles at
all), gets an empty weight list and an on-chain total of exactly zero, and
still yields one sentinel record whose need_review compares the reported
weight against 0. -/
theorem falsy_voter_sentinel :
    ∀ (profiles profiles2 : Nat → Option Profile)
      (cellsOf cellsOf2 : String → List CellPageResult)
      (derive derive2 : String → String) (v : Vote),
      (v.user_id = none ∨ v.user_id = some 0) →
      enrich_vote profiles cellsOf derive v = enrich_vote profiles2 cellsOf2 derive2 v
      ∧ (enrich_vote profiles cellsOf derive v).weight_list = []
      ∧ (enrich_vote profiles cellsOf derive v).weight_calc = 0
      ∧ reconcile_vote (enrich_vote profiles cellsOf derive v)
          = [⟨v.name, v.user_id, v.weight, 0, "", 0, decide (v.weight ≠ 0), ""⟩] := by
  intro p p2 c c2 d d2 v hu
  have he : ∀ (pp : Nat → Option Profile) (cc : String → List CellPageResult)
      (dd : String → String), enrich_vote pp cc dd v = ⟨v, [], 0⟩ := by
    intro pp cc dd
    rcases hu with h | h <;> simp [enrich_vote, h]
  refine ⟨by rw [he, he], by rw [he], by rw [he], ?_⟩
  rw [he]
  simp [reconcile_vote]

/-- A vote with voter id 0 and reported weight 5, used by the C10 witness. -/
def wVoteZero : Vote := ⟨"Z", some 0, 5⟩

/-- Witness for falsy_voter_sentinel at a voter with id 0. -/
theorem falsy_voter_sentinel_witness :
    (wVoteZero.user_id = none ∨ wVoteZero.user_id = some 0)
    ∧ (enrich_vote wProfiles wCellsOf wDerive wVoteZero).weight_list = []
    ∧ (enrich_vote wProfiles wCellsOf wDerive wVoteZero).weight_calc = 0
    ∧ reconcile_vote (enrich_vote wProfiles wCellsOf wDerive wVoteZero)
        = [⟨wVoteZero.name, wVoteZero.user_id, wVoteZero.weight, 0, "", 0,
            decide (wVoteZero.weight ≠ 0), ""⟩] :=
  ⟨Or.inr rfl,
    (falsy_voter_sentinel wProfiles wProfiles wCellsOf wCellsOf wDerive wDerive
      wVoteZero (Or.inr rfl)).2.1,
    (falsy_voter_sentinel wProfiles wProfiles wCellsOf wCellsOf wDerive wDerive
      wVoteZero (Or.inr rfl)).2.2.1,
    (falsy_voter_sentinel wProfiles wProfiles wCellsOf wCellsOf wDerive wDerive
      wVoteZero (Or.inr rfl)).2.2.2⟩

end Watchdog
